import Mathlib

/-!
Verification of the NurSun Energy Reporter core computations.

The financial projection engine (`projections`, `paybackPeriod`, `totalRoi`)
is embedded from the application root component; JavaScript numbers are
modelled as rationals (`ℚ`), `Math.round` / `toFixed` as explicit rounding
functions.  The PV-performance horizon and sun-path geometry is embedded
with the trigonometric primitives (`Math.sin`, `Math.cos`, `Math.asin`,
`Math.acos`, `Math.PI`) kept abstract as an oracle parameter, since the
geometric claims under verification are structural and hold for every
choice of those primitives.
-/

/-- JavaScript `Math.round`: round to the nearest integer, halves toward
positive infinity, i.e. `⌊q + 1/2⌋` (written with the executable
`Rat.floor` so that concrete instances compute). -/
def jround (q : ℚ) : ℤ := (q + 1/2).floor

lemma ratFloor_eq (q : ℚ) : q.floor = ⌊q⌋ := by
  refine le_antisymm ?_ ?_
  · exact Int.le_floor.mpr (Rat.le_floor.mp le_rfl)
  · exact Rat.le_floor.mpr (Int.floor_le q)

lemma jround_eq (q : ℚ) : jround q = ⌊q + 1/2⌋ := ratFloor_eq _

lemma jround_mono {p q : ℚ} (h : p ≤ q) : jround p ≤ jround q := by
  rw [jround_eq, jround_eq]
  exact Int.floor_mono (by linarith)

/-- JavaScript `parseFloat(x.toFixed(2))`: round to two decimal places
(nearest, ties toward the larger value). -/
def round2 (q : ℚ) : ℚ := (jround (q * 100) : ℚ) / 100

/-- JavaScript `parseFloat(x.toFixed(4))`, used on dragged map coordinates. -/
def round4 (q : ℚ) : ℚ := (jround (q * 10000) : ℚ) / 10000

/-- The numeric fields of `ProjectAssumptions` (src/types.ts); the four
string fields (manager, role, location, customer) play no role in the
computations and are omitted. -/
structure ProjectAssumptions where
  stationCost : ℚ
  systemCapacity : ℚ
  annualYieldYear1 : ℚ
  usdSomExchange : ℚ
  panelDegradation : ℚ
  inflationRate : ℚ
  baseTariff : ℚ
  projectLifetime : ℚ
deriving Repr, DecidableEq

/-- `YearProjection` (src/types.ts).  The rounded values are stored here,
exactly as the emitted struct stores them. -/
structure YearProjection where
  year : ℤ
  tariff : ℚ
  yield : ℚ
  revenue : ℚ
  cumulativeRevenue : ℚ
  isBreakEven : Bool
deriving Repr, DecidableEq, Inhabited

/-- `DEFAULT_ASSUMPTIONS` from the application root. -/
def defaultAssumptions : ProjectAssumptions :=
  { stationCost := 694000
    systemCapacity := 1000
    annualYieldYear1 := 1683000
    usdSomExchange := 87.50
    panelDegradation := 0.0055
    inflationRate := 0.07
    baseTariff := 4.47
    projectLifetime := 25 }

/-- Number of iterations of `for (let i = 0; i < assumptions.projectLifetime; i++)`
for an integer counter `i` and a (possibly non-integer, possibly
non-positive) bound: `max 0 ⌈lifetime⌉` (executable form). -/
def iterCount (a : ProjectAssumptions) : ℕ := (-((-a.projectLifetime).floor)).toNat

lemma iterCount_eq (a : ProjectAssumptions) :
    iterCount a = (⌈a.projectLifetime⌉).toNat := by
  rw [iterCount, ratFloor_eq, Int.floor_neg, neg_neg]

/-- The loop runs exactly for the integer indices `i` with `i < projectLifetime`. -/
lemma lt_iterCount_iff (a : ProjectAssumptions) (i : ℕ) :
    i < iterCount a ↔ (i : ℚ) < a.projectLifetime := by
  rw [iterCount_eq]
  constructor
  · intro h
    have h2 : (i : ℤ) < ⌈a.projectLifetime⌉ := by
      omega
    exact_mod_cast Int.lt_ceil.mp h2
  · intro h
    have h2 : (i : ℤ) < ⌈a.projectLifetime⌉ := Int.lt_ceil.mpr (by exact_mod_cast h)
    omega

/-- The loop body of the `projections` `useMemo`, in state-passing form:
`fuel` counts the remaining iterations, `i` is the loop counter, `cum` the
running `currentCumulative`, `found` the `breakEvenYearFound` latch. -/
def projectionsAux (a : ProjectAssumptions) :
    ℕ → ℕ → ℚ → Bool → List YearProjection
  | 0, _, _, _ => []
  | fuel + 1, i, cum, found =>
    let degradationFactor := (1 - a.panelDegradation) ^ i
    let inflationFactor := (1 + a.inflationRate) ^ i
    let annualYield := a.annualYieldYear1 * degradationFactor
    let tariff := a.baseTariff * inflationFactor
    let revenue := annualYield * tariff / a.usdSomExchange
    let cum2 := cum + revenue
    let isBE := !found && decide (a.stationCost ≤ cum2)
    { year := 2026 + i
      tariff := round2 tariff
      yield := (jround annualYield : ℚ)
      revenue := (jround revenue : ℚ)
      cumulativeRevenue := (jround cum2 : ℚ)
      isBreakEven := isBE } :: projectionsAux a fuel (i + 1) cum2 (found || isBE)

/-- The `projections` memo of the application root: the year-by-year table. -/
def projections (a : ProjectAssumptions) : List YearProjection :=
  projectionsAux a (iterCount a) 0 0 false

/-! Closed forms for the unrounded intermediate quantities of year index `i`. -/

/-- Unrounded degraded yield of year index `i`. -/
def yieldQ (a : ProjectAssumptions) (i : ℕ) : ℚ :=
  a.annualYieldYear1 * (1 - a.panelDegradation) ^ i

/-- Unrounded escalated tariff of year index `i`. -/
def tariffQ (a : ProjectAssumptions) (i : ℕ) : ℚ :=
  a.baseTariff * (1 + a.inflationRate) ^ i

/-- Unrounded revenue of year index `i`. -/
def revenueQ (a : ProjectAssumptions) (i : ℕ) : ℚ :=
  yieldQ a i * tariffQ a i / a.usdSomExchange

/-- Full-precision cumulative revenue before year index `i`
(`cumB a 0 = 0`; `cumB a (i+1)` is the cumulative through year `i`). -/
def cumB (a : ProjectAssumptions) : ℕ → ℚ
  | 0 => 0
  | i + 1 => cumB a i + revenueQ a i

/-- The value of the `breakEvenYearFound` latch on entry to iteration `i`:
some earlier year already reached the station cost. -/
def foundB (a : ProjectAssumptions) (i : ℕ) : Bool :=
  (List.range i).any fun j => decide (a.stationCost ≤ cumB a (j + 1))

/-- The emitted struct of year index `i`, expressed through the closed forms. -/
def mkYear (a : ProjectAssumptions) (i : ℕ) : YearProjection :=
  { year := 2026 + i
    tariff := round2 (tariffQ a i)
    yield := (jround (yieldQ a i) : ℚ)
    revenue := (jround (revenueQ a i) : ℚ)
    cumulativeRevenue := (jround (cumB a (i + 1)) : ℚ)
    isBreakEven := !foundB a i && decide (a.stationCost ≤ cumB a (i + 1)) }

lemma foundB_zero (a : ProjectAssumptions) : foundB a 0 = false := rfl

lemma foundB_succ (a : ProjectAssumptions) (i : ℕ) :
    foundB a (i + 1) = (foundB a i || decide (a.stationCost ≤ cumB a (i + 1))) := by
  simp [foundB, List.range_succ]

lemma projectionsAux_eq (a : ProjectAssumptions) :
    ∀ fuel i, projectionsAux a fuel i (cumB a i) (foundB a i) =
      (List.range' i fuel).map (mkYear a)
  | 0, i => rfl
  | fuel + 1, i => by
    have hcum : cumB a i + yieldQ a i * tariffQ a i / a.usdSomExchange
        = cumB a (i + 1) := rfl
    have hlatch : (foundB a i ||
        (!foundB a i && decide (a.stationCost ≤ cumB a (i + 1))))
        = foundB a (i + 1) := by
      rw [foundB_succ]
      cases foundB a i <;> simp
    simp only [projectionsAux, List.range', List.map_cons]
    rw [show a.annualYieldYear1 * (1 - a.panelDegradation) ^ i
        * (a.baseTariff * (1 + a.inflationRate) ^ i) / a.usdSomExchange
        = yieldQ a i * tariffQ a i / a.usdSomExchange from rfl, hcum, hlatch,
      projectionsAux_eq a fuel (i + 1)]
    rfl

/-- The projection list is pointwise `mkYear`. -/
lemma projections_eq (a : ProjectAssumptions) :
    projections a = (List.range (iterCount a)).map (mkYear a) := by
  have h0 : cumB a 0 = 0 := rfl
  have h1 : foundB a 0 = false := rfl
  rw [projections, ← h0, ← h1, projectionsAux_eq, List.range_eq_range']

/-- The `paybackPeriod` memo.  `projections.find(p => p.isBreakEven)` is the
first marked entry; `projections.indexOf(breakEven)` is its index (the
entries are distinct object references, so `indexOf` of the found object is
the index of the first match, `List.findIdx`).  The `[idx - 1]` access is
only reached with `idx ≥ 1`, where it is in bounds; the `getD default` is
unreachable. -/
def paybackPeriod (a : ProjectAssumptions) : ℚ :=
  let L := projections a
  match L.find? (fun p => p.isBreakEven) with
  | none => a.projectLifetime
  | some breakEven =>
    let idx := L.findIdx (fun p => p.isBreakEven)
    if idx = 0 then 1
    else
      let prevYear := (L[idx - 1]?).getD default
      let needed := a.stationCost - prevYear.cumulativeRevenue
      ((breakEven.year : ℚ) - 2026) + needed / breakEven.revenue

/-- A JavaScript number that is the result of dividing one finite value by
another: finite, an infinity, or NaN. -/
inductive JNum where
  | fin (q : ℚ)
  | inf
  | ninf
  | nan
deriving Repr, DecidableEq

/-- IEEE-754 division of finite values as JavaScript performs it:
`x / 0` is `Infinity`, `-Infinity` or `NaN` according to the sign of `x`. -/
def jdiv (x y : ℚ) : JNum :=
  if y = 0 then
    if 0 < x then .inf else if x < 0 then .ninf else .nan
  else .fin (x / y)

/-- Multiplication of such a result by the positive literal `100`. -/
def jmul100 : JNum → JNum
  | .fin q => .fin (q * 100)
  | .inf => .inf
  | .ninf => .ninf
  | .nan => .nan

/-- The `totalRoi` memo:
`(projections[projections.length - 1].cumulativeRevenue / stationCost) * 100`.
When the projection list is empty, `projections[-1]` is `undefined` and the
field access throws a `TypeError`, modelled as `Except.error`. -/
def totalRoi (a : ProjectAssumptions) : Except Unit JNum :=
  match (projections a).getLast? with
  | none => .error ()
  | some final => .ok (jmul100 (jdiv final.cumulativeRevenue a.stationCost))

/-! Helper lemmas about the emitted entries. -/

lemma projections_length (a : ProjectAssumptions) :
    (projections a).length = iterCount a := by
  rw [projections_eq, List.length_map, List.length_range]

lemma projections_getElem? (a : ProjectAssumptions) (i : ℕ) (h : i < iterCount a) :
    (projections a)[i]? = some (mkYear a i) := by
  rw [projections_eq, List.getElem?_map, List.getElem?_range h]
  rfl

lemma projections_getElem?_inv (a : ProjectAssumptions) {i : ℕ} {p : YearProjection}
    (h : (projections a)[i]? = some p) : i < iterCount a ∧ p = mkYear a i := by
  have hlen : i < (projections a).length := by
    rcases List.getElem?_eq_some_iff.mp h with ⟨hl, _⟩
    exact hl
  rw [projections_length] at hlen
  rw [projections_getElem? a i hlen] at h
  exact ⟨hlen, (Option.some_inj.mp h).symm⟩

lemma foundB_true_iff (a : ProjectAssumptions) (i : ℕ) :
    foundB a i = true ↔ ∃ j, j < i ∧ a.stationCost ≤ cumB a (j + 1) := by
  simp [foundB, List.any_eq_true, List.mem_range]

/-- The latch marks exactly the first crossing of the full-precision
cumulative over the station cost. -/
lemma mkYear_isBreakEven_iff (a : ProjectAssumptions) (i : ℕ) :
    (mkYear a i).isBreakEven = true ↔
      a.stationCost ≤ cumB a (i + 1) ∧ ∀ j < i, cumB a (j + 1) < a.stationCost := by
  show (!foundB a i && decide (a.stationCost ≤ cumB a (i + 1))) = true ↔ _
  rw [Bool.and_eq_true, Bool.not_eq_true', decide_eq_true_eq]
  constructor
  · rintro ⟨hf, hc⟩
    refine ⟨hc, fun j hj => ?_⟩
    by_contra hnot
    exact absurd ((foundB_true_iff a i).mpr ⟨j, hj, le_of_not_lt hnot⟩)
      (by rw [hf]; exact Bool.false_ne_true)
  · rintro ⟨hc, hall⟩
    refine ⟨?_, hc⟩
    rw [← Bool.not_eq_true, foundB_true_iff]
    rintro ⟨j, hj, hcle⟩
    exact absurd hcle (not_le.mpr (hall j hj))

lemma cumB_mono (a : ProjectAssumptions)
    (hrev : ∀ k, 0 ≤ revenueQ a k) : Monotone (cumB a) := by
  apply monotone_nat_of_le_succ
  intro n
  have := hrev n
  show cumB a n ≤ cumB a n + revenueQ a n
  linarith

lemma revenueQ_nonneg (a : ProjectAssumptions)
    (h1 : 0 ≤ a.annualYieldYear1) (h2 : 0 ≤ a.baseTariff)
    (h4 : a.panelDegradation < 1) (h5 : -1 ≤ a.inflationRate)
    (h6 : 0 < a.usdSomExchange) (k : ℕ) : 0 ≤ revenueQ a k := by
  have hy : 0 ≤ yieldQ a k := mul_nonneg h1 (pow_nonneg (by linarith) k)
  have ht : 0 ≤ tariffQ a k := mul_nonneg h2 (pow_nonneg (by linarith) k)
  exact div_nonneg (mul_nonneg hy ht) h6.le

/-- **C1.**  For every `ProjectAssumptions` and every year index
`i ∈ [0, projectLifetime)`, the emitted `YearProjection` stores the tariff
rounded to two decimals and yield, revenue and cumulative revenue rounded to
whole units, where the unrounded values are
`yield_i = annualYieldYear1 * (1 - panelDegradation)^i`,
`tariff_i = baseTariff * (1 + inflationRate)^i`,
`revenue_i = yield_i * tariff_i / usdSomExchange`, and the cumulative sum
`cumB` satisfies `cumB 0 = 0` and `cumB (j+1) = cumB j + revenue_j`: the
accumulation is threaded at full precision and the rounding is never fed
back into it. -/
theorem year_projection_formulas (a : ProjectAssumptions) (i : ℕ)
    (h : (i : ℚ) < a.projectLifetime) :
    (projections a)[i]? = some
      { year := 2026 + (i : ℤ)
        tariff := round2 (a.baseTariff * (1 + a.inflationRate) ^ i)
        yield := (jround (a.annualYieldYear1 * (1 - a.panelDegradation) ^ i) : ℚ)
        revenue := (jround ((a.annualYieldYear1 * (1 - a.panelDegradation) ^ i)
          * (a.baseTariff * (1 + a.inflationRate) ^ i) / a.usdSomExchange) : ℚ)
        cumulativeRevenue := (jround (cumB a (i + 1)) : ℚ)
        isBreakEven := (mkYear a i).isBreakEven }
    ∧ cumB a 0 = 0
    ∧ ∀ j, cumB a (j + 1) = cumB a j
        + (a.annualYieldYear1 * (1 - a.panelDegradation) ^ j)
          * (a.baseTariff * (1 + a.inflationRate) ^ j) / a.usdSomExchange := by
  refine ⟨?_, rfl, fun j => rfl⟩
  rw [projections_getElem? a i ((lt_iterCount_iff a i).mpr h)]
  rfl

/-- Closed witness for `year_projection_formulas` at the default assumptions,
year index 0. -/
theorem year_projection_formulas_witness :
    ((0 : ℚ) < defaultAssumptions.projectLifetime) ∧
    (projections defaultAssumptions)[0]? = some
      { year := 2026, tariff := 4.47, yield := 1683000, revenue := 85977,
        cumulativeRevenue := 85977, isBreakEven := false } := by
  have h0 : ((0 : ℕ) : ℚ) < defaultAssumptions.projectLifetime := by
    with_unfolding_all decide
  have h := (year_projection_formulas defaultAssumptions 0 h0).1
  refine ⟨by exact_mod_cast h0, ?_⟩
  rw [h]
  with_unfolding_all rfl

/-- **C2.**  At most one emitted entry is marked `isBreakEven`, and an entry
is marked exactly when its full-precision cumulative revenue `cumB a (i+1)`
is the first to reach `stationCost`; no later entry is ever marked. -/
theorem breakeven_unique_first (a : ProjectAssumptions) :
    (∀ (i j : ℕ) (p q : YearProjection),
      (projections a)[i]? = some p → (projections a)[j]? = some q →
      p.isBreakEven = true → q.isBreakEven = true → i = j) ∧
    (∀ (i : ℕ) (p : YearProjection), (projections a)[i]? = some p →
      (p.isBreakEven = true ↔
        a.stationCost ≤ cumB a (i + 1) ∧ ∀ j < i, cumB a (j + 1) < a.stationCost)) := by
  have hchar : ∀ (i : ℕ) (p : YearProjection), (projections a)[i]? = some p →
      (p.isBreakEven = true ↔
        a.stationCost ≤ cumB a (i + 1) ∧ ∀ j < i, cumB a (j + 1) < a.stationCost) := by
    intro i p hp
    rcases projections_getElem?_inv a hp with ⟨_, rfl⟩
    exact mkYear_isBreakEven_iff a i
  refine ⟨?_, hchar⟩
  intro i j p q hp hq hpm hqm
  rcases (hchar i p hp).mp hpm with ⟨hci, hbi⟩
  rcases (hchar j q hq).mp hqm with ⟨hcj, hbj⟩
  rcases lt_trichotomy i j with hij | hij | hij
  · exact absurd hci (not_le.mpr (hbj i hij))
  · exact hij
  · exact absurd hcj (not_le.mpr (hbi j hij))

/-- Closed witness for `breakeven_unique_first` at the default assumptions:
entry 6 is marked, so by the characterization the cumulative of year 6 is the
first to reach the station cost. -/
theorem breakeven_unique_first_witness :
    (projections defaultAssumptions)[6]? = some (mkYear defaultAssumptions 6) ∧
    ((mkYear defaultAssumptions 6).isBreakEven = true ↔
      defaultAssumptions.stationCost ≤ cumB defaultAssumptions 7 ∧
      ∀ j < 6, cumB defaultAssumptions (j + 1) < defaultAssumptions.stationCost) := by
  have hp : (projections defaultAssumptions)[6]? = some (mkYear defaultAssumptions 6) := by
    with_unfolding_all rfl
  exact ⟨hp, (breakeven_unique_first defaultAssumptions).2 6 _ hp⟩

/-- **C6.**  In the documented domain (non-negative first-year yield and
tariff, degradation in `[0,1)`, inflation at least `-1`, positive exchange
rate), the stored `cumulativeRevenue` field is monotonically non-decreasing
along the emitted sequence. -/
theorem cumulative_revenue_monotone (a : ProjectAssumptions)
    (h1 : 0 ≤ a.annualYieldYear1) (h2 : 0 ≤ a.baseTariff)
    (h3 : 0 ≤ a.panelDegradation) (h4 : a.panelDegradation < 1)
    (h5 : -1 ≤ a.inflationRate) (h6 : 0 < a.usdSomExchange) :
    ∀ (i j : ℕ) (p q : YearProjection), i < j →
      (projections a)[i]? = some p → (projections a)[j]? = some q →
      p.cumulativeRevenue ≤ q.cumulativeRevenue := by
  intro i j p q hij hp hq
  rcases projections_getElem?_inv a hp with ⟨_, rfl⟩
  rcases projections_getElem?_inv a hq with ⟨_, rfl⟩
  show ((jround (cumB a (i + 1)) : ℤ) : ℚ) ≤ ((jround (cumB a (j + 1)) : ℤ) : ℚ)
  have hmono := cumB_mono a (revenueQ_nonneg a h1 h2 h4 h5 h6)
    (Nat.succ_le_succ hij.le)
  exact_mod_cast jround_mono hmono

/-- Closed witness for `cumulative_revenue_monotone`: at the default
assumptions the cumulative field of year 0 is at most that of year 1. -/
theorem cumulative_revenue_monotone_witness :
    (85977 : ℚ) ≤ 177467 ∧
    (projections defaultAssumptions)[0]? = some (mkYear defaultAssumptions 0) ∧
    (projections defaultAssumptions)[1]? = some (mkYear defaultAssumptions 1) ∧
    (mkYear defaultAssumptions 0).cumulativeRevenue
      ≤ (mkYear defaultAssumptions 1).cumulativeRevenue := by
  have hp : (projections defaultAssumptions)[0]? = some (mkYear defaultAssumptions 0) := by
    with_unfolding_all rfl
  have hq : (projections defaultAssumptions)[1]? = some (mkYear defaultAssumptions 1) := by
    with_unfolding_all rfl
  refine ⟨by norm_num, hp, hq, ?_⟩
  exact cumulative_revenue_monotone defaultAssumptions
    (by with_unfolding_all decide) (by with_unfolding_all decide)
    (by with_unfolding_all decide) (by with_unfolding_all decide)
    (by with_unfolding_all decide) (by with_unfolding_all decide)
    0 1 _ _ (by decide) hp hq

/-! The payback-period summary. -/

/-- `find?` returns the element at the first satisfying index. -/
lemma find?_eq_of_findIdx {α : Type} {p : α → Bool} :
    ∀ {l : List α} {i : ℕ}, i < l.length → l.findIdx p = i → l.find? p = l[i]?
  | [], i, hlen, _ => absurd hlen (by simp)
  | a :: t, i, hlen, hfi => by
    by_cases hp : p a
    · have h0 : (a :: t).findIdx p = 0 := by simp [List.findIdx_cons, hp]
      rw [h0] at hfi
      subst hfi
      simp [List.find?_cons_of_pos _ hp]
    · have hstep : (a :: t).findIdx p = t.findIdx p + 1 := by
        simp [List.findIdx_cons, hp]
      rw [hstep] at hfi
      subst hfi
      rw [List.find?_cons_of_neg _ hp]
      have hlt : t.findIdx p < t.length := by
        simpa using hlen
      simpa using find?_eq_of_findIdx hlt rfl

lemma projections_getElem (a : ProjectAssumptions) (i : ℕ) (h : i < (projections a).length) :
    (projections a)[i] = mkYear a i := by
  have h2 : i < iterCount a := by rwa [projections_length] at h
  have := projections_getElem? a i h2
  rw [List.getElem?_eq_some_iff] at this
  rcases this with ⟨_, he⟩
  exact he

/-- If year `idx` is the first full-precision crossing, the loop marks
exactly entry `idx`, `findIdx` locates it, and `find?` returns it. -/
lemma breakeven_located (a : ProjectAssumptions) (idx : ℕ) (hn : idx < iterCount a)
    (hc : a.stationCost ≤ cumB a (idx + 1))
    (hall : ∀ j < idx, cumB a (j + 1) < a.stationCost) :
    (projections a).findIdx (fun p => p.isBreakEven) = idx ∧
    (projections a).find? (fun p => p.isBreakEven) = some (mkYear a idx) := by
  have hlen : idx < (projections a).length := by rwa [projections_length]
  have hfi : (projections a).findIdx (fun p => p.isBreakEven) = idx := by
    rw [List.findIdx_eq hlen]
    constructor
    · rw [projections_getElem a idx hlen]
      exact (mkYear_isBreakEven_iff a idx).mpr ⟨hc, hall⟩
    · intro j hj
      rw [projections_getElem a j (lt_trans hj hlen)]
      rw [← Bool.not_eq_true]
      intro hmark
      rcases (mkYear_isBreakEven_iff a j).mp hmark with ⟨hcj, _⟩
      exact absurd hcj (not_le.mpr (hall j hj))
  refine ⟨hfi, ?_⟩
  rw [find?_eq_of_findIdx hlen hfi, projections_getElem? a idx hn]

/-- **C3 (amended).**  The payback summary: if no year crosses break-even,
payback is the raw `projectLifetime`; if the crossing is at index 0, payback
is 1; otherwise payback is `idx + (stationCost - storedCumulative_{idx-1}) /
storedRevenue_idx`, where the interpolation uses the *rounded stored fields*
`jround (cumB a idx)` and `jround (revenueQ a idx)` of the emitted entries,
not the full-precision intermediates. -/
theorem payback_rule (a : ProjectAssumptions) :
    ((∀ i < iterCount a, cumB a (i + 1) < a.stationCost) →
      paybackPeriod a = a.projectLifetime) ∧
    (∀ idx, idx < iterCount a → a.stationCost ≤ cumB a (idx + 1) →
      (∀ j < idx, cumB a (j + 1) < a.stationCost) →
      paybackPeriod a = if idx = 0 then 1 else
        (idx : ℚ) + (a.stationCost - (jround (cumB a idx) : ℚ))
          / (jround (revenueQ a idx) : ℚ)) := by
  constructor
  · intro hnone
    have hfind : (projections a).find? (fun p => p.isBreakEven) = none := by
      rw [List.find?_eq_none]
      intro x hx
      rw [projections_eq] at hx
      rcases List.mem_map.mp hx with ⟨i, hi, rfl⟩
      rw [List.mem_range] at hi
      intro hmark
      rcases (mkYear_isBreakEven_iff a i).mp hmark with ⟨hci, _⟩
      exact absurd hci (not_le.mpr (hnone i hi))
    simp [paybackPeriod, hfind]
  · intro idx hn hc hall
    rcases breakeven_located a idx hn hc hall with ⟨hfi, hfind⟩
    by_cases h0 : idx = 0
    · subst h0
      simp [paybackPeriod, hfind, hfi]
    · have hprev : (projections a)[idx - 1]? = some (mkYear a (idx - 1)) :=
        projections_getElem? a (idx - 1) (lt_of_le_of_lt (Nat.sub_le idx 1) hn)
      have hidx1 : idx - 1 + 1 = idx := Nat.succ_pred_eq_of_pos (Nat.pos_of_ne_zero h0)
      simp only [paybackPeriod, hfind, hfi, if_neg h0, hprev, Option.getD_some]
      simp only [mkYear, hidx1]
      push_cast
      ring

/-- Assumptions exhibiting the rounding in the payback interpolation:
each year earns exactly 9.6, the station costs 10. -/
def interpEx : ProjectAssumptions :=
  { stationCost := 10
    systemCapacity := 1
    annualYieldYear1 := 9.6
    usdSomExchange := 1
    panelDegradation := 0
    inflationRate := 0
    baseTariff := 1
    projectLifetime := 3 }

/-- **C3 (counterexample).**  At `interpEx` the break-even entry is year
index 1 (calendar 2027) and the code returns payback 1, because it
interpolates with the *rounded* stored fields (`jround 9.6 = 10` makes the
numerator 0); the claim's formula with the unrounded intermediates gives
`1 + (10 - 9.6)/9.6 = 25/24 ≠ 1`. -/
theorem payback_interpolation_counterexample :
    paybackPeriod interpEx = 1 ∧
    ((projections interpEx).find? (fun p => p.isBreakEven)).map YearProjection.year
      = some 2027 ∧
    (1 : ℚ) + (interpEx.stationCost - cumB interpEx 1) / revenueQ interpEx 1 = 25/24 ∧
    paybackPeriod interpEx
      ≠ (1 : ℚ) + (interpEx.stationCost - cumB interpEx 1) / revenueQ interpEx 1 := by
  have hpb : paybackPeriod interpEx = 1 := by with_unfolding_all rfl
  have hval : (1 : ℚ) + (interpEx.stationCost - cumB interpEx 1) / revenueQ interpEx 1
      = 25/24 := by
    have hc : cumB interpEx 1 = 48/5 := by with_unfolding_all rfl
    have hr : revenueQ interpEx 1 = 48/5 := by with_unfolding_all rfl
    have hs : interpEx.stationCost = 10 := rfl
    rw [hc, hr, hs]
    norm_num
  refine ⟨hpb, by with_unfolding_all rfl, hval, ?_⟩
  rw [hpb, hval]
  norm_num

/-- Closed witness for `payback_rule` at `interpEx`, crossing index 1. -/
theorem payback_rule_witness :
    1 < iterCount interpEx ∧ interpEx.stationCost ≤ cumB interpEx 2 ∧
    (∀ j < 1, cumB interpEx (j + 1) < interpEx.stationCost) ∧
    paybackPeriod interpEx = (1 : ℚ)
      + (interpEx.stationCost - (jround (cumB interpEx 1) : ℚ))
        / (jround (revenueQ interpEx 1) : ℚ) := by
  have h1 : 1 < iterCount interpEx := by with_unfolding_all decide
  have h2 : interpEx.stationCost ≤ cumB interpEx 2 := by with_unfolding_all decide
  have h3 : ∀ j < 1, cumB interpEx (j + 1) < interpEx.stationCost := by
    with_unfolding_all decide
  refine ⟨h1, h2, h3, ?_⟩
  have h := (payback_rule interpEx).2 1 h1 h2 h3
  simpa using h

/-- Default assumptions with `projectLifetime = 0`. -/
def zeroLifetimeA : ProjectAssumptions := { defaultAssumptions with projectLifetime := 0 }

/-- Default assumptions with `stationCost = 0` (one projected year). -/
def zeroCostA : ProjectAssumptions :=
  { defaultAssumptions with stationCost := 0, projectLifetime := 1 }

/-- **C4 (code evaluated at the failing inputs).**  For
`projectLifetime = 0` the projection sequence is empty and payback falls
back to the raw lifetime 0, but `totalRoi` reads
`projections[projections.length - 1].cumulativeRevenue` of an empty array —
a `TypeError` at runtime, not a guarded safe default.  For
`stationCost = 0` the ROI division is unguarded and evaluates to
JavaScript `Infinity`. -/
theorem roi_unguarded_at_failing_inputs :
    projections zeroLifetimeA = [] ∧
    totalRoi zeroLifetimeA = Except.error () ∧
    paybackPeriod zeroLifetimeA = 0 ∧
    totalRoi zeroCostA = Except.ok JNum.inf := by
  refine ⟨?_, ?_, ?_, ?_⟩ <;> with_unfolding_all rfl

/-- **C5 (counterexample).**  At the default assumptions the year-index-0
revenue is `jround ((1683000 * 4.47) / 87.5) = 85977`, not 85919 as the
claim states. -/
theorem default_revenue_not_85919 :
    ((projections defaultAssumptions)[0]?).map YearProjection.revenue
      = some ((jround ((1683000 * 4.47) / 87.5 : ℚ) : ℚ)) ∧
    ((jround ((1683000 * 4.47) / 87.5 : ℚ) : ℚ)) = 85977 ∧
    ((projections defaultAssumptions)[0]?).map YearProjection.revenue
      ≠ some (85919 : ℚ) := by
  refine ⟨?_, ?_, ?_⟩
  · with_unfolding_all rfl
  · with_unfolding_all rfl
  · with_unfolding_all decide

/-- **C5 (amended).**  At the default assumptions the year-index-0 revenue
`(1683000 * 4.47)/87.5` rounds to 85977, the cumulative of year 0 likewise,
and break-even is marked exactly at the first year (index 6) whose
full-precision cumulative revenue exceeds 694000. -/
theorem default_assumptions_example :
    ((projections defaultAssumptions)[0]?).map YearProjection.revenue = some 85977 ∧
    ((projections defaultAssumptions)[0]?).map YearProjection.cumulativeRevenue
      = some 85977 ∧
    (projections defaultAssumptions).map YearProjection.isBreakEven
      = [false, false, false, false, false, false, true, false, false, false, false,
         false, false, false, false, false, false, false, false, false, false, false,
         false, false, false] ∧
    cumB defaultAssumptions 6 < 694000 ∧ (694000 : ℚ) < cumB defaultAssumptions 7 := by
  have h6 : cumB defaultAssumptions 6
      = 242386929664837686631811422042749 / 400000000000000000000000000 := by
    with_unfolding_all rfl
  have h7 : cumB defaultAssumptions 7
      = 409245858724418256874294015913827792989 / 560000000000000000000000000000000 := by
    with_unfolding_all rfl
  refine ⟨by with_unfolding_all rfl, by with_unfolding_all rfl, by with_unfolding_all rfl,
    ?_, ?_⟩
  · rw [h6]; norm_num
  · rw [h7]; norm_num

/-! ## PV performance view: horizon silhouette and sun paths

`Math.sin`, `Math.cos`, `Math.asin`, `Math.acos` and `Math.PI` are kept
abstract: the properties below are structural and hold for every oracle. -/

/-- Abstract trigonometric primitives of the JavaScript `Math` object. -/
structure TrigOracle where
  pi : ℚ
  sin : ℚ → ℚ
  cos : ℚ → ℚ
  asin : ℚ → ℚ
  acos : ℚ → ℚ

/-- A horizon sample (`HorizonPoint` of PvPerformance.tsx). -/
structure HorizonPoint where
  azimuth : ℚ
  height : ℚ
deriving Repr, DecidableEq

/-- Chart center (`size / 2` with `size = 260`). -/
def chartCenter : ℚ := 130

/-- Chart radius. -/
def chartRadius : ℚ := 90

/-- `getCoords` of the polar chart: PVGIS orientation, radius shrinking
with height. -/
def getCoords (T : TrigOracle) (azimuth height : ℚ) : ℚ × ℚ :=
  let angleRad := (azimuth + 90) * (T.pi / 180)
  let r := chartRadius * (1 - height / 90)
  (chartCenter + r * T.cos angleRad, chartCenter + r * T.sin angleRad)

/-- The synthetic fallback profile: azimuths `-180, -175, …, 180` (73 fixed
steps), height the clamped sum of two sinusoids. -/
def dummyHorizon (T : TrigOracle) : List HorizonPoint :=
  (List.range 73).map fun (k : ℕ) =>
    let a : ℚ := -180 + 5 * (k : ℚ)
    { azimuth := a
      height := max 0 (8 + T.sin (a * T.pi / 45) * 4 + T.cos (a * T.pi / 90) * 3) }

/-- The comparator `(a, b) => a.azimuth - b.azimuth`: ascending azimuth. -/
def leAz (p q : HorizonPoint) : Prop := p.azimuth ≤ q.azimuth

instance : DecidableRel leAz := fun p q => inferInstanceAs (Decidable (p.azimuth ≤ q.azimuth))

instance : IsTotal HorizonPoint leAz := ⟨fun p q => le_total p.azimuth q.azimuth⟩

instance : IsTrans HorizonPoint leAz := ⟨fun _ _ _ h1 h2 => le_trans h1 h2⟩

/-- Strict azimuth order, used to compare sorted lists with distinct keys. -/
def ltAz (p q : HorizonPoint) : Prop := p.azimuth < q.azimuth

instance : IsAntisymm HorizonPoint ltAz :=
  ⟨fun _ _ h1 h2 => absurd (lt_trans h1 h2) (lt_irrefl _)⟩

/-- `[...horizon].sort((a, b) => a.azimuth - b.azimuth)`. -/
def sortByAzimuth (l : List HorizonPoint) : List HorizonPoint :=
  List.insertionSort leAz l

/-- `effectiveHorizon`: empty or absent samples fall back to the synthetic
profile, real samples are sorted ascending by azimuth. -/
def effectiveHorizon (T : TrigOracle) (horizon : Option (List HorizonPoint)) :
    List HorizonPoint :=
  match horizon with
  | none => dummyHorizon T
  | some l => if l.isEmpty then dummyHorizon T else sortByAzimuth l

/-- The closing-edge loop of `horizonPath`:
`for (let a = last; a >= first; a -= 5)` visits
`last - 5*j` for `j = 0, …, ⌊(last - first)/5⌋`. -/
def edgeSteps (aFirst aLast : ℚ) : List ℚ :=
  if aFirst ≤ aLast then
    (List.range ((((aLast - aFirst) / 5).floor).toNat + 1)).map
      fun (j : ℕ) => aLast - 5 * (j : ℚ)
  else []

/-- `horizonPath`: move to the first sample, line segments through the rest,
line segments back along the zero-height edge, closed with `Z`. -/
def horizonPath (T : TrigOracle) (eff : List HorizonPoint) : String :=
  match eff with
  | [] => ""
  | p0 :: rest =>
    let c0 := getCoords T p0.azimuth p0.height
    let aFirst := p0.azimuth
    let aLast := ((p0 :: rest).getLast (List.cons_ne_nil p0 rest)).azimuth
    ("M " ++ toString c0.1 ++ " " ++ toString c0.2
      ++ String.join (rest.map fun p =>
          let c := getCoords T p.azimuth p.height
          " L " ++ toString c.1 ++ " " ++ toString c.2)
      ++ String.join ((edgeSteps aFirst aLast).map fun a =>
          let e := getCoords T a 0
          " L " ++ toString e.1 ++ " " ++ toString e.2)) ++ " Z"

/-! Sun-path construction (`getSunPath`). -/

/-- `Math.max(-1, Math.min(1, x))`. -/
def clamp11 (x : ℚ) : ℚ := max (-1) (min 1 x)

/-- The altitude computed for hour angle `h`:
`asin (sin lat * sin dec + cos lat * cos dec * cos H)` (all in radians via
`pi / 180`). -/
def sunAltitude (T : TrigOracle) (lat dec h : ℚ) : ℚ :=
  let latRad := lat * (T.pi / 180)
  let decRad := dec * (T.pi / 180)
  let hRad := h * (T.pi / 180)
  T.asin (T.sin latRad * T.sin decRad + T.cos latRad * T.cos decRad * T.cos hRad)

/-- The raw azimuth cosine `(sin dec − sin alt * sin lat)/(cos alt * cos lat)`. -/
def sunCosAz (T : TrigOracle) (lat dec h : ℚ) : ℚ :=
  let latRad := lat * (T.pi / 180)
  let decRad := dec * (T.pi / 180)
  let altitude := sunAltitude T lat dec h
  (T.sin decRad - T.sin altitude * T.sin latRad) / (T.cos altitude * T.cos latRad)

/-- The plotted azimuth: inverse cosine of the clamped argument, converted
to degrees, negated for negative hour angles. -/
def sunAzimuth (T : TrigOracle) (lat dec h : ℚ) : ℚ :=
  let azBase := T.acos (clamp11 (sunCosAz T lat dec h)) * (180 / T.pi)
  if h < 0 then -azBase else azBase

/-- One iteration of the sun-path loop: skip when the altitude is below the
horizon, otherwise plot the azimuth/altitude point. -/
def sunStep (T : TrigOracle) (lat dec h : ℚ) : Option (ℚ × ℚ) :=
  if sunAltitude T lat dec h < 0 then none
  else some (getCoords T (sunAzimuth T lat dec h) (sunAltitude T lat dec h * (180 / T.pi)))

/-- The surviving points of the sweep
`for (let hourAngle = -180; hourAngle <= 180; hourAngle += 2)`. -/
def sunPoints (T : TrigOracle) (lat dec : ℚ) : List (ℚ × ℚ) :=
  (List.range 181).filterMap fun (k : ℕ) => sunStep T lat dec (-180 + 2 * (k : ℚ))

/-- `getSunPath`: empty when fewer than two points survive. -/
def getSunPath (T : TrigOracle) (lat dec : ℚ) : String :=
  let points := sunPoints T lat dec
  if points.length < 2 then ""
  else
    match points with
    | [] => ""
    | p :: rest =>
      "M " ++ toString p.1 ++ " " ++ toString p.2 ++ " "
        ++ String.intercalate " "
          (rest.map fun q => "L " ++ toString q.1 ++ " " ++ toString q.2)

/-! ## PV view state: horizon data and the verified flag -/

/-- The state relevant to the horizon chart: coordinates, fetched horizon
samples, and the `isDataReal` flag behind the Verified badge. -/
structure PvState where
  lat : ℚ
  lon : ℚ
  horizonData : Option (List HorizonPoint)
  isDataReal : Bool

/-- The events that touch this state: marker drag, map click, and the two
outcomes of the horizon fetch (a parsed sample list, or a failure). -/
inductive PvEvent where
  | dragEnd (lt ln : ℚ)
  | mapClick (lt ln : ℚ)
  | horizonFetchOk (parsed : List HorizonPoint)
  | horizonFetchErr

/-- Initial state: Kyrgyzstan coordinates, no horizon data, flag down. -/
def pvInit : PvState :=
  { lat := 41.4228, lon := 75.9650, horizonData := none, isDataReal := false }

/-- The state transitions of PvPerformance: drag and click update the
coordinates (rounded to 4 decimals) and clear the flag; a successful fetch
stores the parsed list and raises the flag only when the list is non-empty
(`parsedHorizon.length > 0`), otherwise leaves the state unchanged; a fetch
failure clears the flag. -/
def pvStep : PvState → PvEvent → PvState
  | s, .dragEnd lt ln => { s with lat := round4 lt, lon := round4 ln, isDataReal := false }
  | s, .mapClick lt ln => { s with lat := round4 lt, lon := round4 ln, isDataReal := false }
  | s, .horizonFetchOk parsed =>
    if 0 < parsed.length then { s with horizonData := some parsed, isDataReal := true }
    else s
  | s, .horizonFetchErr => { s with isDataReal := false }

/-- States reachable from the initial state. -/
inductive PvReachable : PvState → Prop
  | init : PvReachable pvInit
  | step (s : PvState) (e : PvEvent) : PvReachable s → PvReachable (pvStep s e)

/-- Invariant: the flag is up only when a non-empty parsed sample list is
held. -/
lemma pv_flag_invariant {s : PvState} (hr : PvReachable s) :
    s.isDataReal = true → ∃ l, s.horizonData = some l ∧ l ≠ [] := by
  induction hr with
  | init => intro h; exact absurd h (by simp [pvInit])
  | step s e _ ih =>
    cases e with
    | dragEnd lt ln => intro h; exact absurd h (by simp [pvStep])
    | mapClick lt ln => intro h; exact absurd h (by simp [pvStep])
    | horizonFetchErr => intro h; exact absurd h (by simp [pvStep])
    | horizonFetchOk parsed =>
      intro h
      by_cases hl : 0 < parsed.length
      · refine ⟨parsed, ?_, ?_⟩
        · simp [pvStep, hl]
        · exact List.ne_nil_of_length_pos hl
      · rw [pvStep] at h
        rw [if_neg hl] at h
        simpa [pvStep, hl] using ih h

/-- Non-empty lists are not routed to the fallback. -/
lemma effectiveHorizon_of_ne_nil (T : TrigOracle) {l : List HorizonPoint} (h : l ≠ []) :
    effectiveHorizon T (some l) = sortByAzimuth l := by
  rw [effectiveHorizon]
  rw [if_neg (by simpa [List.isEmpty_iff] using h)]

/-- A path of a non-empty sample list is non-empty and `Z`-closed. -/
lemma horizonPath_cons_spec (T : TrigOracle) (p0 : HorizonPoint)
    (rest : List HorizonPoint) :
    horizonPath T (p0 :: rest) ≠ "" ∧
    ∃ t : String, horizonPath T (p0 :: rest) = t ++ " Z" := by
  constructor
  · intro h
    rw [String.ext_iff] at h
    rw [horizonPath] at h
    simp [String.data_append] at h
  · exact ⟨_, rfl⟩

/-- A concrete oracle used to instantiate the structural theorems. -/
def trigZero : TrigOracle :=
  { pi := 0, sin := fun _ => 0, cos := fun _ => 0, asin := fun _ => 0, acos := fun _ => 0 }

/-- **C7.**  In any reachable state holding an empty or absent horizon
sample set, the chart uses the deterministic synthetic fallback profile
(73 azimuth steps of the two-sinusoid formula), the produced path is a
non-empty `Z`-closed path, and the verified flag shown with the chart is
false. -/
theorem fallback_horizon_valid (T : TrigOracle) (s : PvState) (hr : PvReachable s)
    (he : s.horizonData = none ∨ s.horizonData = some []) :
    effectiveHorizon T s.horizonData = dummyHorizon T ∧
    (dummyHorizon T).length = 73 ∧
    (∀ k : ℕ, k < 73 → (dummyHorizon T)[k]? = some
      { azimuth := -180 + 5 * (k : ℚ)
        height := max 0 (8 + T.sin ((-180 + 5 * (k : ℚ)) * T.pi / 45) * 4
          + T.cos ((-180 + 5 * (k : ℚ)) * T.pi / 90) * 3) }) ∧
    horizonPath T (dummyHorizon T) ≠ "" ∧
    (∃ t : String, horizonPath T (dummyHorizon T) = t ++ " Z") ∧
    s.isDataReal = false := by
  have hlen : (dummyHorizon T).length = 73 := by simp [dummyHorizon]
  have hcons : ∃ p0 rest, dummyHorizon T = p0 :: rest := by
    cases hd : dummyHorizon T with
    | nil => rw [hd] at hlen; exact absurd hlen (by simp)
    | cons p0 rest => exact ⟨p0, rest, rfl⟩
  rcases hcons with ⟨p0, rest, hd⟩
  have hpath := horizonPath_cons_spec T p0 rest
  have hflag : s.isDataReal = false := by
    cases hb : s.isDataReal with
    | false => rfl
    | true =>
      rcases pv_flag_invariant hr hb with ⟨l, hl, hne⟩
      rcases he with he | he <;> rw [he] at hl
      · exact absurd hl (by simp)
      · exact absurd (Option.some_inj.mp hl).symm hne
  refine ⟨?_, hlen, ?_, ?_, ?_, hflag⟩
  · rcases he with he | he <;> rw [he]
    · rfl
    · rfl
  · intro k hk
    rw [dummyHorizon, List.getElem?_map, List.getElem?_range hk]
    rfl
  · rw [hd]; exact hpath.1
  · rw [hd]; exact hpath.2

/-- Closed witness for `fallback_horizon_valid` at the initial state. -/
theorem fallback_horizon_valid_witness :
    (pvInit.horizonData = none ∨ pvInit.horizonData = some []) ∧
    effectiveHorizon trigZero pvInit.horizonData = dummyHorizon trigZero ∧
    horizonPath trigZero (dummyHorizon trigZero) ≠ "" ∧
    pvInit.isDataReal = false := by
  have h := fallback_horizon_valid trigZero pvInit PvReachable.init (Or.inl rfl)
  exact ⟨Or.inl rfl, h.1, h.2.2.2.1, h.2.2.2.2.2⟩

/-- A `≤`-sorted list with pairwise-distinct azimuths is `<`-sorted. -/
lemma sorted_ltAz_of_nodup {l : List HorizonPoint}
    (hs : l.Sorted leAz) (hn : (l.map HorizonPoint.azimuth).Nodup) :
    l.Sorted ltAz := by
  have hpair : l.Pairwise (fun p q => p.azimuth ≠ q.azimuth) := by
    rw [List.Nodup, List.pairwise_map] at hn
    exact hn
  exact (hs.and hpair).imp fun hpq => lt_of_le_of_ne hpq.1 hpq.2

/-- Sorting is insensitive to the input order once azimuths are distinct. -/
lemma sortByAzimuth_eq_of_perm {l1 l2 : List HorizonPoint}
    (hperm : l1.Perm l2) (hnodup : (l1.map HorizonPoint.azimuth).Nodup) :
    sortByAzimuth l1 = sortByAzimuth l2 := by
  have hp1 : (sortByAzimuth l1).Perm l1 := List.perm_insertionSort leAz l1
  have hp2 : (sortByAzimuth l2).Perm l2 := List.perm_insertionSort leAz l2
  have hs1 : (sortByAzimuth l1).Sorted leAz := List.sorted_insertionSort leAz l1
  have hs2 : (sortByAzimuth l2).Sorted leAz := List.sorted_insertionSort leAz l2
  have hn1 : ((sortByAzimuth l1).map HorizonPoint.azimuth).Nodup :=
    ((hp1.map HorizonPoint.azimuth).nodup_iff).mpr hnodup
  have hn2 : ((sortByAzimuth l2).map HorizonPoint.azimuth).Nodup :=
    ((hp2.map HorizonPoint.azimuth).nodup_iff).mpr
      (((hperm.map HorizonPoint.azimuth).nodup_iff).mp hnodup)
  exact List.eq_of_perm_of_sorted (hp1.trans (hperm.trans hp2.symm))
    (sorted_ltAz_of_nodup hs1 hn1) (sorted_ltAz_of_nodup hs2 hn2)

/-- **C8.**  For samples with pairwise-distinct azimuths, the silhouette
path built from any permutation of the sample list is identical to the one
built from the list pre-sorted ascending by azimuth. -/
theorem horizon_order_invariant (T : TrigOracle) (l1 l2 : List HorizonPoint)
    (hperm : l1.Perm l2) (hnodup : (l1.map HorizonPoint.azimuth).Nodup) :
    horizonPath T (effectiveHorizon T (some l2))
      = horizonPath T (effectiveHorizon T (some (sortByAzimuth l1))) := by
  by_cases hnil : l1 = []
  · subst hnil
    have h2 : l2 = [] := hperm.nil_eq.symm
    subst h2
    rfl
  · have h2 : l2 ≠ [] := by
      intro h
      subst h
      exact hnil hperm.eq_nil
  -- both branches take the sorting path
    have hsne : sortByAzimuth l1 ≠ [] := by
      intro h
      have hp : l1.Perm (sortByAzimuth l1) := (List.perm_insertionSort leAz l1).symm
      rw [h] at hp
      exact hnil hp.eq_nil
    rw [effectiveHorizon_of_ne_nil T h2, effectiveHorizon_of_ne_nil T hsne]
    congr 1
    have hsorted : sortByAzimuth (sortByAzimuth l1) = sortByAzimuth l1 := by
      refine List.eq_of_perm_of_sorted (r := ltAz)
        (List.perm_insertionSort leAz (sortByAzimuth l1)) ?_ ?_
      · exact sorted_ltAz_of_nodup (List.sorted_insertionSort leAz _)
          ((((List.perm_insertionSort leAz (sortByAzimuth l1)).map
            HorizonPoint.azimuth).nodup_iff).mpr
            ((((List.perm_insertionSort leAz l1).map HorizonPoint.azimuth).nodup_iff).mpr
              hnodup))
      · exact sorted_ltAz_of_nodup (List.sorted_insertionSort leAz l1)
          ((((List.perm_insertionSort leAz l1).map HorizonPoint.azimuth).nodup_iff).mpr
            hnodup)
    rw [← sortByAzimuth_eq_of_perm hperm hnodup]
    exact (hsorted).symm

/-- Closed witness for `horizon_order_invariant`: a two-sample list and its
transposition. -/
theorem horizon_order_invariant_witness :
    ([⟨10, 1⟩, ⟨-20, 2⟩] : List HorizonPoint).Perm [⟨-20, 2⟩, ⟨10, 1⟩] ∧
    (([⟨10, 1⟩, ⟨-20, 2⟩] : List HorizonPoint).map HorizonPoint.azimuth).Nodup ∧
    horizonPath trigZero (effectiveHorizon trigZero (some [⟨-20, 2⟩, ⟨10, 1⟩]))
      = horizonPath trigZero
          (effectiveHorizon trigZero (some (sortByAzimuth [⟨10, 1⟩, ⟨-20, 2⟩]))) := by
  have hperm : ([⟨10, 1⟩, ⟨-20, 2⟩] : List HorizonPoint).Perm [⟨-20, 2⟩, ⟨10, 1⟩] :=
    List.Perm.swap _ _ _
  have hnodup : (([⟨10, 1⟩, ⟨-20, 2⟩] : List HorizonPoint).map HorizonPoint.azimuth).Nodup := by
    simp
    norm_num
  exact ⟨hperm, hnodup, horizon_order_invariant trigZero _ _ hperm hnodup⟩

/-- **C9.**  The sun-path construction: a step emits no point exactly when
the altitude (from `sin alt = sin lat sin dec + cos lat cos dec cos H`) is
below the horizon; the inverse-cosine argument is clamped into `[-1, 1]`
(so the computation is total); the azimuth is negated exactly for negative
hour angles; the sweep covers hour angles `-180, -178, …, 180`; and fewer
than two surviving points give the empty path. -/
theorem sun_path_structure (T : TrigOracle) (lat dec : ℚ) :
    (∀ h : ℚ, (sunStep T lat dec h = none ↔ sunAltitude T lat dec h < 0) ∧
      (0 ≤ sunAltitude T lat dec h → sunStep T lat dec h
        = some (getCoords T (sunAzimuth T lat dec h)
            (sunAltitude T lat dec h * (180 / T.pi))))) ∧
    (∀ x : ℚ, -1 ≤ clamp11 x ∧ clamp11 x ≤ 1) ∧
    (∀ h : ℚ, h < 0 → sunAzimuth T lat dec h
      = -(T.acos (clamp11 (sunCosAz T lat dec h)) * (180 / T.pi))) ∧
    (∀ h : ℚ, 0 ≤ h → sunAzimuth T lat dec h
      = T.acos (clamp11 (sunCosAz T lat dec h)) * (180 / T.pi)) ∧
    sunPoints T lat dec = (List.range 181).filterMap
      (fun (k : ℕ) => sunStep T lat dec (-180 + 2 * (k : ℚ))) ∧
    ((sunPoints T lat dec).length < 2 → getSunPath T lat dec = "") := by
  refine ⟨?_, ?_, ?_, ?_, rfl, ?_⟩
  · intro h
    constructor
    · constructor
      · intro hnone
        by_contra hge
        rw [sunStep, if_neg (by exact fun hlt => hge hlt)] at hnone
        exact Option.some_ne_none _ hnone
      · intro hlt
        rw [sunStep, if_pos hlt]
    · intro hge
      rw [sunStep, if_neg (not_lt.mpr hge)]
  · intro x
    exact ⟨le_max_left _ _, max_le (by norm_num) (min_le_left _ _)⟩
  · intro h hneg
    rw [sunAzimuth, if_pos hneg]
  · intro h hge
    rw [sunAzimuth, if_neg (not_lt.mpr hge)]
  · intro hlt
    rw [getSunPath, if_pos hlt]

/-- Closed witness for `sun_path_structure` at the zero oracle. -/
theorem sun_path_structure_witness :
    (sunStep trigZero 0 0 0 = none ↔ sunAltitude trigZero 0 0 0 < 0) ∧
    (-1 ≤ clamp11 3 ∧ clamp11 3 ≤ 1) ∧
    ((0 : ℚ) ≤ 0 → sunAzimuth trigZero 0 0 0
      = trigZero.acos (clamp11 (sunCosAz trigZero 0 0 0)) * (180 / trigZero.pi)) := by
  have h := sun_path_structure trigZero 0 0
  exact ⟨(h.1 0).1, h.2.1 3, h.2.2.2.1 0⟩

/-- **C10.**  In every reachable state of the PV view the verified flag is
up only when a non-empty parsed horizon sample list is held — in which case
the chart shows exactly those sorted samples, never the synthetic fallback —
and every location change (marker drag, map click) resets the flag. -/
theorem verified_badge_invariant :
    (∀ s : PvState, PvReachable s → s.isDataReal = true →
      ∃ l, s.horizonData = some l ∧ l ≠ [] ∧
        ∀ T : TrigOracle, effectiveHorizon T s.horizonData = sortByAzimuth l) ∧
    (∀ (s : PvState) (lt ln : ℚ),
      (pvStep s (PvEvent.dragEnd lt ln)).isDataReal = false ∧
      (pvStep s (PvEvent.mapClick lt ln)).isDataReal = false) := by
  constructor
  · intro s hr hflag
    rcases pv_flag_invariant hr hflag with ⟨l, hl, hne⟩
    refine ⟨l, hl, hne, fun T => ?_⟩
    rw [hl]
    exact effectiveHorizon_of_ne_nil T hne
  · intro s lt ln
    exact ⟨rfl, rfl⟩

/-- Closed witness for `verified_badge_invariant`: after a successful fetch
of one sample from the initial state, the flag is up and the chart shows the
sorted real sample. -/
theorem verified_badge_invariant_witness :
    PvReachable (pvStep pvInit (PvEvent.horizonFetchOk [⟨0, 5⟩])) ∧
    (pvStep pvInit (PvEvent.horizonFetchOk [⟨0, 5⟩])).isDataReal = true ∧
    ∃ l, (pvStep pvInit (PvEvent.horizonFetchOk [⟨0, 5⟩])).horizonData = some l ∧
      l ≠ [] ∧ ∀ T : TrigOracle,
        effectiveHorizon T (pvStep pvInit (PvEvent.horizonFetchOk [⟨0, 5⟩])).horizonData
          = sortByAzimuth l := by
  have hr : PvReachable (pvStep pvInit (PvEvent.horizonFetchOk [⟨0, 5⟩])) :=
    PvReachable.step pvInit (PvEvent.horizonFetchOk [⟨0, 5⟩]) PvReachable.init
  have hflag : (pvStep pvInit (PvEvent.horizonFetchOk [⟨0, 5⟩])).isDataReal = true := by
    simp [pvStep]
  exact ⟨hr, hflag, (verified_badge_invariant).1 _ hr hflag⟩
